import Mathlib

/-!
Verification of the `bagels-quick` CLI (`src/bagels_quick/cli.py`), a
companion tool that creates and edits financial records (expenses, income,
transfers) in an SQLite database with tables `record`, `account`,
`category`, plus a JSON configuration file.

The embedding is shallow: the three tables become Lean lists of structures
(list order models table row order, as used by SQL `fetchone`), SQL
aggregate queries become folds over those lists, `REAL` amounts become
rationals, timestamps become natural numbers, and each command handler
becomes a pure function from the database state to `Except e` of the new
state (raising `click.ClickException` before any write corresponds to
returning `.error`; the exception messages are abstracted to the list of
names they report where relevant).  SQL `LIKE` is modelled by an
executable matcher `likeMatch` with the standard `%`/`_` wildcard
semantics, and SQL `LOWER` by `Char.toLower` (both lowercase exactly the
ASCII letters).
-/

deriving instance DecidableEq for Except

/-- Row of the `account` table.  `deletedAt IS NULL` (soft deletion) is
modelled by `deletedAt : Option Nat`. -/
structure Account where
  id : Nat
  name : String
  description : String
  beginningBalance : ℚ
  deletedAt : Option Nat
  updatedAt : Nat
deriving DecidableEq, Repr

/-- Row of the `category` table. -/
structure Category where
  id : Nat
  name : String
  nature : String
  parentCategoryId : Option Nat
  deletedAt : Option Nat
deriving DecidableEq, Repr

/-- Row of the `record` table (a ledger transaction).  `date`, `createdAt`
and `updatedAt` are abstract timestamps. -/
structure Rec where
  id : Nat
  createdAt : Nat
  updatedAt : Nat
  label : String
  amount : ℚ
  date : Nat
  accountId : Nat
  categoryId : Option Nat
  isInProgress : Bool
  isIncome : Bool
  isTransfer : Bool
  transferToAccountId : Option Nat
deriving DecidableEq, Repr

/-- The whole database state seen by the tool. -/
structure DB where
  accounts : List Account
  categories : List Category
  records : List Rec
deriving DecidableEq, Repr

/-! ## SQL LIKE and LOWER -/

/-- SQL `LIKE` pattern matching over characters: `%` matches any (possibly
empty) sequence, `_` matches exactly one character, anything else matches
itself.  This is the semantics SQLite gives the pattern
`'%' || search || '%'` built by `find_account` / `find_category`. -/
def likeMatch : List Char → List Char → Bool
  | [], s => s.isEmpty
  | c :: ps, s =>
    if c == '%' then s.tails.any (fun t => likeMatch ps t)
    else match s with
      | [] => false
      | d :: s2 => (c == '_' || c == d) && likeMatch ps s2

/-- `LOWER(s)` as a character list (SQLite's `LOWER` and Lean's
`Char.toLower` both fold exactly the ASCII uppercase letters). -/
def lowerChars (s : String) : List Char := s.data.map Char.toLower

/-- The lowered `LIKE` pattern `LOWER('%' || search || '%')` used by the
partial-match query. -/
def likePatternOf (search : String) : List Char :=
  ('%' :: search.data ++ ['%']).map Char.toLower

/-- `LOWER(name) LIKE LOWER('%' || search || '%')`. -/
def nameLike (search name : String) : Bool :=
  likeMatch (likePatternOf search) (lowerChars name)

/-- `LOWER(name) = LOWER(search)` — the exact-match test. -/
def exactNameMatch (search name : String) : Bool :=
  lowerChars name == lowerChars search

/-! ## Name resolver (`find_account`, `find_category`) -/

/-- Core of `find_account` / `find_category`: first the case-insensitive
exact-name query (`fetchone`, i.e. first row in table order), then the
`LIKE` query; zero matches is `none`, a unique match is returned, several
matches raise `click.ClickException` listing every candidate name (the
error value is that list of names). -/
def resolveRows (rows : List (Nat × String)) (search : String) :
    Except (List String) (Option (Nat × String)) :=
  match rows.find? (fun p => exactNameMatch search p.2) with
  | some p => .ok (some p)
  | none =>
    match rows.filter (fun p => nameLike search p.2) with
    | [] => .ok none
    | [p] => .ok (some p)
    | p :: q :: rest => .error ((p :: q :: rest).map (fun x => x.2))

/-- The `(id, name)` rows of non-soft-deleted accounts, in table order. -/
def accountRows (accs : List Account) : List (Nat × String) :=
  (accs.filter (fun a => a.deletedAt == none)).map (fun a => (a.id, a.name))

/-- The `(id, name)` rows of non-soft-deleted categories, in table order. -/
def categoryRows (cats : List Category) : List (Nat × String) :=
  (cats.filter (fun c => c.deletedAt == none)).map (fun c => (c.id, c.name))

/-- `find_account` from the source. -/
def find_account (accs : List Account) (search : String) :
    Except (List String) (Option (Nat × String)) :=
  resolveRows (accountRows accs) search

/-- `find_category` from the source. -/
def find_category (cats : List Category) (search : String) :
    Except (List String) (Option (Nat × String)) :=
  resolveRows (categoryRows cats) search

/-- Case-insensitive substring containment, the fallback matching that the
specification describes (`p` occurs contiguously in `s`). -/
def containsChars (p s : List Char) : Bool :=
  s.tails.any (fun t => p == t.take p.length)

/-- Resolver as the specification words it: identical to `resolveRows`
except that the fallback is a plain case-insensitive substring match
instead of the `LIKE` query.  Kept only to compare against the code. -/
def specResolveRows (rows : List (Nat × String)) (search : String) :
    Except (List String) (Option (Nat × String)) :=
  match rows.find? (fun p => exactNameMatch search p.2) with
  | some p => .ok (some p)
  | none =>
    match rows.filter (fun p => containsChars (lowerChars search) (lowerChars p.2)) with
    | [] => .ok none
    | [p] => .ok (some p)
    | p :: q :: rest => .error ((p :: q :: rest).map (fun x => x.2))

/-! ## Balance calculator (`calculate_account_balance`) -/

/-- `SELECT COALESCE(SUM(amount), 0) FROM record WHERE ...` over the rows
selected by `p`. -/
def sumAmounts (l : List Rec) : ℚ := (l.map (fun r => r.amount)).sum

/-- `calculate_account_balance` from the source: beginning balance, plus
non-transfer income rows of the account, minus non-transfer expense rows of
the account, minus transfer rows with the account as source, plus every row
whose `transferToAccountId` is the account (the last query carries no
`isTransfer` restriction in the code). -/
def calculate_account_balance (records : List Rec) (accountId : Nat) (beginningBalance : ℚ) : ℚ :=
  beginningBalance
    + sumAmounts (records.filter (fun r => r.accountId == accountId && r.isIncome && !r.isTransfer))
    - sumAmounts (records.filter (fun r => r.accountId == accountId && !r.isIncome && !r.isTransfer))
    - sumAmounts (records.filter (fun r => r.accountId == accountId && r.isTransfer))
    + sumAmounts (records.filter (fun r => r.transferToAccountId == some accountId))

/-- The balance formula as the specification words it: the same four sums,
but with the transfers-in sum restricted to transfer records
(`isTransfer`).  Kept only to compare against the code. -/
def specBalance (records : List Rec) (accountId : Nat) (beginningBalance : ℚ) : ℚ :=
  beginningBalance
    + sumAmounts (records.filter (fun r => r.accountId == accountId && r.isIncome && !r.isTransfer))
    - sumAmounts (records.filter (fun r => r.accountId == accountId && !r.isIncome && !r.isTransfer))
    - sumAmounts (records.filter (fun r => r.accountId == accountId && r.isTransfer))
    + sumAmounts (records.filter (fun r => r.isTransfer && r.transferToAccountId == some accountId))

/-- Signed contribution of a single ledger row to the balance of account
`aid`, mirroring the four query conditions of
`calculate_account_balance`. -/
def recordContribution (aid : Nat) (r : Rec) : ℚ :=
  (if r.accountId == aid && r.isIncome && !r.isTransfer then r.amount else 0)
    - (if r.accountId == aid && !r.isIncome && !r.isTransfer then r.amount else 0)
    - (if r.accountId == aid && r.isTransfer then r.amount else 0)
    + (if r.transferToAccountId == some aid then r.amount else 0)

theorem sumAmounts_filter_cons (p : Rec → Bool) (r : Rec) (rs : List Rec) :
    sumAmounts ((r :: rs).filter p) = (if p r then r.amount else 0) + sumAmounts (rs.filter p) := by
  cases h : p r <;> simp [List.filter_cons, h, sumAmounts]

/-- Splitting the computed balance into the beginning balance plus the sum
of per-record contributions. -/
theorem balance_split (records : List Rec) (aid : Nat) (b : ℚ) :
    calculate_account_balance records aid b = b + (records.map (recordContribution aid)).sum := by
  induction records with
  | nil => simp [calculate_account_balance, sumAmounts]
  | cons r rs ih =>
    have hc : recordContribution aid r =
        (if r.accountId == aid && r.isIncome && !r.isTransfer then r.amount else 0)
          - (if r.accountId == aid && !r.isIncome && !r.isTransfer then r.amount else 0)
          - (if r.accountId == aid && r.isTransfer then r.amount else 0)
          + (if r.transferToAccountId == some aid then r.amount else 0) := rfl
    simp only [calculate_account_balance, sumAmounts_filter_cons, List.map_cons, List.sum_cons] at ih ⊢
    linarith [ih, hc]

/-! ## Config store (`get_config`, `config` command group) -/

/-- A JSON value stored in the configuration file (only the shapes the
tool uses). -/
inductive CVal where
  | null : CVal
  | str : String → CVal
  | bool : Bool → CVal
deriving DecidableEq, Repr

/-- The built-in defaults of `get_config`. -/
def configDefaults : List (String × CVal) :=
  [("default_account", CVal.null), ("default_category", CVal.null),
   ("confirm_undo", CVal.bool true), ("show_balance_after_add", CVal.bool false)]

/-- One step of Python `dict.update`, `d[k] = v`: setting key `k`
replaces the existing entry in place (a Python dict holds each key once),
otherwise appends a new entry at the end, preserving insertion order. -/
def setKey : List (String × CVal) → String → CVal → List (String × CVal)
  | [], k, v => [(k, v)]
  | p :: t, k, v => if p.1 == k then (k, v) :: t else p :: setKey t k v

/-- Python `dict.update`: fold `setKey` over the entries of the saved
file (a JSON object, so its keys are distinct). -/
def dictUpdate (base : List (String × CVal)) : List (String × CVal) → List (String × CVal)
  | [] => base
  | (k, v) :: rest => dictUpdate (setKey base k v) rest

/-- `get_config` from the source: the defaults, updated with the saved
file content when the file exists and parses (`none` models a missing or
unreadable file). -/
def get_config : Option (List (String × CVal)) → List (String × CVal)
  | none => configDefaults
  | some saved => dictUpdate configDefaults saved

/-- Python truthiness of `config[key]` for the string-valued settings:
`None`, a missing key, or an empty string all act as "not set". -/
def cfgStr (cfg : List (String × CVal)) (k : String) : Option String :=
  match List.lookup k cfg with
  | some (CVal.str s) => if s.isEmpty then none else some s
  | _ => none

/-- Python truthiness of an optional command-line string argument
(`if account:` treats the empty string like an absent option). -/
def truthy (o : Option String) : Option String :=
  match o with
  | some s => if s.isEmpty then none else some s
  | none => none

/-! ## Default account and category -/

/-- `ORDER BY id LIMIT 1` over the rows satisfying `p`: the row with the
least id (keeping the earlier row on ties). -/
def minByIdWith (p : Account → Bool) : List Account → Option Account
  | [] => none
  | a :: rest =>
    match minByIdWith p rest with
    | none => if p a then some a else none
    | some b => if p a then (if a.id < b.id then some a else some b) else some b

/-- The fallback of `get_default_account`: the least-id live account whose
name is not `'Outside source'`, else the least-id live account, else the
`"No accounts found"` error. -/
def defaultAccountFallback (accs : List Account) : Except (List String) (Nat × String) :=
  match minByIdWith (fun a => a.deletedAt == none && a.name != "Outside source") accs with
  | some a => .ok (a.id, a.name)
  | none =>
    match minByIdWith (fun a => a.deletedAt == none) accs with
    | some a => .ok (a.id, a.name)
    | none => .error ["No accounts found. Create one in Bagels first."]

/-- `get_default_account` from the source; `defaultAcc` is the truthiness
value of `config["default_account"]` (see `cfgStr`). -/
def get_default_account (accs : List Account) (defaultAcc : Option String) :
    Except (List String) (Nat × String) :=
  match defaultAcc with
  | some s =>
    match find_account accs s with
    | .error e => .error e
    | .ok (some r) => .ok r
    | .ok none => defaultAccountFallback accs
  | none => defaultAccountFallback accs

/-- `get_default_category` from the source; `defaultCat` is the truthiness
value of `config["default_category"]`. -/
def get_default_category (cats : List Category) (defaultCat : Option String) :
    Except (List String) (Option (Nat × String)) :=
  match defaultCat with
  | some s => find_category cats s
  | none => .ok none

/-! ## The `add` command -/

/-- Account resolution in `add`: the `-a` argument when truthy (a failed
lookup aborts the command), otherwise the default account. -/
def resolveAddAccount (accs : List Account) (defaultAcc : Option String)
    (accountArg : Option String) : Except (List String) (Nat × String) :=
  match truthy accountArg with
  | some s =>
    match find_account accs s with
    | .error e => .error e
    | .ok none => .error ["Account not found"]
    | .ok (some r) => .ok r
  | none => get_default_account accs defaultAcc

/-- Category resolution in `add`: the `-c` argument when truthy (a failed
lookup aborts the command), otherwise the default category when it
resolves, otherwise no category. -/
def resolveAddCategory (cats : List Category) (defaultCat : Option String)
    (categoryArg : Option String) : Except (List String) (Option Nat) :=
  match truthy categoryArg with
  | some s =>
    match find_category cats s with
    | .error e => .error e
    | .ok none => .error ["Category not found"]
    | .ok (some (cid, _)) => .ok (some cid)
  | none =>
    match get_default_category cats defaultCat with
    | .error e => .error e
    | .ok r => .ok (r.map (fun p => p.1))

/-- The `add` command: positivity check, account and category resolution,
then a single `INSERT INTO record`.  `dateVal` is the parsed `-d` date (or
today), `now` the creation timestamp, `freshId` the autoincrement id. -/
def add (db : DB) (cfg : List (String × CVal)) (amount : ℚ) (label : String)
    (categoryArg accountArg : Option String) (income : Bool) (dateVal : Nat)
    (now : Nat) (freshId : Nat) : Except (List String) DB :=
  if amount ≤ 0 then .error ["Amount must be positive."]
  else
    match resolveAddAccount db.accounts (cfgStr cfg "default_account") accountArg with
    | .error e => .error e
    | .ok (accId, _) =>
      match resolveAddCategory db.categories (cfgStr cfg "default_category") categoryArg with
      | .error e => .error e
      | .ok catId =>
        .ok { db with records := db.records ++ [{
          id := freshId, createdAt := now, updatedAt := now, label := label,
          amount := amount, date := dateVal, accountId := accId, categoryId := catId,
          isInProgress := false, isIncome := income, isTransfer := false,
          transferToAccountId := none }] }

/-! ## The `transfer` command -/

/-- The `transfer` command: positivity check, resolution of both accounts,
rejection of equal source and destination, then a single
`INSERT INTO record` with `isTransfer = 1` and a null category. -/
def transfer (db : DB) (amount : ℚ) (label : String) (fromSearch toSearch : String)
    (dateVal : Nat) (now : Nat) (freshId : Nat) : Except (List String) DB :=
  if amount ≤ 0 then .error ["Amount must be positive."]
  else
    match find_account db.accounts fromSearch with
    | .error e => .error e
    | .ok none => .error ["Source account not found"]
    | .ok (some (fromId, _)) =>
      match find_account db.accounts toSearch with
      | .error e => .error e
      | .ok none => .error ["Destination account not found"]
      | .ok (some (toId, _)) =>
        if fromId == toId then .error ["Source and destination accounts must be different."]
        else .ok { db with records := db.records ++ [{
          id := freshId, createdAt := now, updatedAt := now, label := label,
          amount := amount, date := dateVal, accountId := fromId, categoryId := none,
          isInProgress := false, isIncome := false, isTransfer := true,
          transferToAccountId := some toId }] }

/-! ## The `undo` command -/

/-- `SELECT ... ORDER BY createdAt DESC LIMIT 1`: the record with the
greatest creation timestamp (keeping the earlier row on ties). -/
def selectLastCreated : List Rec → Option Rec
  | [] => none
  | r :: rs =>
    match selectLastCreated rs with
    | none => some r
    | some b => if b.createdAt > r.createdAt then some b else some r

/-- The `undo` command.  `yes` is the `-y` flag, `confirmUndo` the
`confirm_undo` setting, `userConfirms` the interactive answer; a declined
confirmation or an empty ledger leaves the database unchanged, otherwise
`DELETE FROM record WHERE id = ?` removes the selected row. -/
def undo (db : DB) (yes confirmUndo userConfirms : Bool) : DB :=
  match selectLastCreated db.records with
  | none => db
  | some r =>
    if !yes && confirmUndo && !userConfirms then db
    else { db with records := db.records.filter (fun x => !(x.id == r.id)) }

/-! ## The `edit` command -/

/-- Descending insertion by `createdAt`, used to model
`ORDER BY createdAt DESC` with an offset. -/
def insertDesc (r : Rec) : List Rec → List Rec
  | [] => [r]
  | x :: xs => if r.createdAt > x.createdAt then r :: x :: xs else x :: insertDesc r xs

/-- The ledger sorted by creation timestamp, newest first. -/
def sortByCreatedDesc : List Rec → List Rec
  | [] => []
  | r :: rs => insertDesc r (sortByCreatedDesc rs)

/-- The `UPDATE record SET ...` applied by `edit` to one row: each
user-specified field is overwritten (`catR` and `accR` are the already
resolved category and account ids), `updatedAt` is always refreshed. -/
def applyEdit (r : Rec) (amountArg : Option ℚ) (labelArg : Option String)
    (catR accR : Option Nat) (dateArg : Option Nat) (isIncomeArg : Option Bool)
    (now : Nat) : Rec :=
  { r with
    amount := amountArg.getD r.amount
    label := labelArg.getD r.label
    categoryId := match catR with | some c => some c | none => r.categoryId
    accountId := accR.getD r.accountId
    date := dateArg.getD r.date
    isIncome := isIncomeArg.getD r.isIncome
    updatedAt := now }

/-- Category resolution in `edit` (`-c` given: a failed lookup aborts). -/
def resolveOptCategory (cats : List Category) (categoryArg : Option String) :
    Except (List String) (Option Nat) :=
  match categoryArg with
  | none => .ok none
  | some s =>
    match find_category cats s with
    | .error e => .error e
    | .ok none => .error ["Category not found"]
    | .ok (some (cid, _)) => .ok (some cid)

/-- Account resolution in `edit` (`-a` given: a failed lookup aborts). -/
def resolveOptAccount (accs : List Account) (accountArg : Option String) :
    Except (List String) (Option Nat) :=
  match accountArg with
  | none => .ok none
  | some s =>
    match find_account accs s with
    | .error e => .error e
    | .ok none => .error ["Account not found"]
    | .ok (some (aid, _)) => .ok (some aid)

/-- The `edit` command: requires at least one field, selects the row at
position `num` in most-recently-created order (silently doing nothing when
the offset runs past the ledger), validates a new amount, resolves a new
category and account, and updates exactly the selected row.  `dateArg` is
the parsed `-d` date. -/
def edit (db : DB) (num : Nat) (amountArg : Option ℚ) (labelArg : Option String)
    (categoryArg accountArg : Option String) (dateArg : Option Nat)
    (isIncomeArg : Option Bool) (now : Nat) : Except (List String) DB :=
  if amountArg = none ∧ labelArg = none ∧ categoryArg = none ∧ accountArg = none
      ∧ dateArg = none ∧ isIncomeArg = none then
    .error ["Specify at least one field to edit"]
  else
    match (sortByCreatedDesc db.records).drop (num - 1) with
    | [] => .ok db
    | target :: _ =>
      if (match amountArg with | some v => decide (v ≤ 0) | none => false) then
        .error ["Amount must be positive."]
      else
        match resolveOptCategory db.categories categoryArg with
        | .error e => .error e
        | .ok catR =>
          match resolveOptAccount db.accounts accountArg with
          | .error e => .error e
          | .ok accR =>
            .ok { db with records := db.records.map (fun x =>
              if x.id == target.id then applyEdit x amountArg labelArg catR accR dateArg isIncomeArg now
              else x) }

/-! ## The `balance set` and `balance adjust` commands -/

/-- The `balance set` command: resolves the account, reads its stored
beginning balance (first row with that id), computes the current balance,
and stores `old_beginning + (target - current)` so that the current
balance becomes the target.  The unreachable case of a vanished row (the
Python code would crash there) is an error. -/
def balance_set (db : DB) (search : String) (target : ℚ) (now : Nat) :
    Except (List String) DB :=
  match find_account db.accounts search with
  | .error e => .error e
  | .ok none => .error ["Account not found"]
  | .ok (some (accId, _)) =>
    match db.accounts.find? (fun a => a.id == accId) with
    | none => .error ["missing account row"]
    | some acc =>
      let current := calculate_account_balance db.records accId acc.beginningBalance
      let newBeginning := acc.beginningBalance + (target - current)
      .ok { db with accounts := db.accounts.map (fun a =>
        if a.id == accId then { a with beginningBalance := newBeginning, updatedAt := now }
        else a) }

/-- The `balance adjust` command: resolves the account and adds the delta
to its stored beginning balance. -/
def balance_adjust (db : DB) (search : String) (delta : ℚ) (now : Nat) :
    Except (List String) DB :=
  match find_account db.accounts search with
  | .error e => .error e
  | .ok none => .error ["Account not found"]
  | .ok (some (accId, _)) =>
    match db.accounts.find? (fun a => a.id == accId) with
    | none => .error ["missing account row"]
    | some acc =>
      .ok { db with accounts := db.accounts.map (fun a =>
        if a.id == accId then { a with beginningBalance := acc.beginningBalance + delta, updatedAt := now }
        else a) }

/-! ## C1: the balance formula -/

/-- A ledger row that is not a transfer yet carries a transfer
destination: creatable by the host application, never by this tool. -/
def strayDestRec : Rec :=
  { id := 1, createdAt := 1, updatedAt := 1, label := "stray", amount := 5, date := 1,
    accountId := 2, categoryId := none, isInProgress := false, isIncome := true,
    isTransfer := false, transferToAccountId := some 1 }

/-- C1 counterexample: on a ledger holding one non-transfer record whose
`transferToAccountId` is account 1, the code counts its amount into
account 1's balance, while the claim's formula — every sum restricted to
the record kind it names — does not. -/
theorem balance_transfers_in_unrestricted :
    calculate_account_balance [strayDestRec] 1 0 = 5 ∧ specBalance [strayDestRec] 1 0 = 0 := by
  constructor <;> · simp [calculate_account_balance, specBalance, sumAmounts, strayDestRec]

/-- C1 (amended): the computed balance is the beginning balance plus the
sum over all records of the signed contribution whose transfers-in part
counts every record naming the account as transfer destination, transfer
or not; the two formulas agree exactly when every record with a transfer
destination is a transfer record (in particular on ledgers written only by
this tool). -/
theorem calculate_balance_characterization :
    (∀ (records : List Rec) (aid : Nat) (b : ℚ),
      calculate_account_balance records aid b = b + (records.map (recordContribution aid)).sum) ∧
    (∀ (records : List Rec) (aid : Nat) (b : ℚ),
      (∀ r ∈ records, r.transferToAccountId = some aid → r.isTransfer = true) →
      calculate_account_balance records aid b = specBalance records aid b) := by
  constructor
  · exact balance_split
  · intro records aid b h
    have hf : records.filter (fun r => r.transferToAccountId == some aid)
        = records.filter (fun r => r.isTransfer && r.transferToAccountId == some aid) := by
      apply List.filter_congr
      intro r hr
      by_cases hd : r.transferToAccountId = some aid
      · simp [hd, h r hr hd]
      · simp [hd]
    simp only [calculate_account_balance, specBalance, hf]

/-- C1 amended-theorem witness: a genuine transfer record, where the code
and the claim's formula agree. -/
theorem calculate_balance_characterization_witness :
    calculate_account_balance
        [{ id := 1, createdAt := 1, updatedAt := 1, label := "move", amount := 7, date := 1,
           accountId := 2, categoryId := none, isInProgress := false, isIncome := false,
           isTransfer := true, transferToAccountId := some 1 }] 1 3
      = specBalance
        [{ id := 1, createdAt := 1, updatedAt := 1, label := "move", amount := 7, date := 1,
           accountId := 2, categoryId := none, isInProgress := false, isIncome := false,
           isTransfer := true, transferToAccountId := some 1 }] 1 3 :=
  calculate_balance_characterization.2 _ 1 3 (by decide)

/-! ## C2 and C8: `balance set` and `balance adjust` -/

theorem find?_map_pres (l : List Account) (g : Account → Account) (p : Account → Bool)
    (hp : ∀ a, p (g a) = p a) : (l.map g).find? p = (l.find? p).map g := by
  induction l with
  | nil => rfl
  | cons a t ih => cases h : p a <;> simp [List.find?, hp, h, ih]

/-- Looking up an account id after the `UPDATE account SET beginningBalance
= ?, updatedAt = ? WHERE id = ?` rewrite of the table. -/
theorem find?_update_by_id (l : List Account) (accId0 : Nat) (nb : ℚ) (now : Nat) :
    (l.map (fun a => if a.id == accId0 then { a with beginningBalance := nb, updatedAt := now } else a)).find?
        (fun a => a.id == accId0)
      = (l.find? (fun a => a.id == accId0)).map
        (fun a => if a.id == accId0 then { a with beginningBalance := nb, updatedAt := now } else a) := by
  apply find?_map_pres
  intro a
  by_cases hca : (a.id == accId0) = true <;> simp [hca]

/-- C2: after `balance set ACCOUNT X`, the ledger is unchanged and
recomputing the resolved account's current balance from its new stored
beginning balance yields exactly X (amounts are modelled as rationals, so
the claim's floating-point-rounding allowance is not needed). -/
theorem balance_set_reaches_target (db : DB) (search : String) (target : ℚ) (now : Nat)
    (db' : DB) (h : balance_set db search target now = .ok db') :
    db'.records = db.records ∧
    ∀ accId accName, find_account db.accounts search = .ok (some (accId, accName)) →
      ∃ acc', db'.accounts.find? (fun a => a.id == accId) = some acc' ∧
        calculate_account_balance db'.records accId acc'.beginningBalance = target := by
  unfold balance_set at h
  split at h
  · exact absurd h (by simp)
  · exact absurd h (by simp)
  next accId0 name0 heq =>
    split at h
    · exact absurd h (by simp)
    next acc hfind =>
      simp only [Except.ok.injEq] at h
      subst h
      refine ⟨rfl, ?_⟩
      intro accId accName heq2
      rw [heq] at heq2
      simp only [Except.ok.injEq, Option.some.injEq, Prod.mk.injEq] at heq2
      obtain ⟨heq1, _⟩ := heq2
      subst heq1
      have hacc := List.find?_some hfind
      have hmap := find?_update_by_id db.accounts accId0
        (acc.beginningBalance + (target - calculate_account_balance db.records accId0 acc.beginningBalance))
        now
      rw [hfind, Option.map_some', if_pos hacc] at hmap
      refine ⟨_, hmap, ?_⟩
      show calculate_account_balance db.records accId0 _ = target
      simp only [balance_split]
      ring

/-- C2 witness. -/
theorem balance_set_reaches_target_witness :
    ∃ acc', List.find? (fun a => a.id == 1)
        (DB.mk [⟨1, "Checking", "", 500, none, 9⟩] [] []).accounts = some acc' ∧
      calculate_account_balance (DB.mk [⟨1, "Checking", "", 500, none, 9⟩] [] []).records 1
        acc'.beginningBalance = 500 := by
  have hset : balance_set (DB.mk [⟨1, "Checking", "", 100, none, 0⟩] [] []) "check" 500 9
      = .ok (DB.mk [⟨1, "Checking", "", 500, none, 9⟩] [] []) := by
    have hf : find_account [⟨1, "Checking", "", 100, none, 0⟩] "check"
        = .ok (some (1, "Checking")) := by decide
    simp only [balance_set, hf, List.find?, calculate_account_balance, sumAmounts]
    norm_num
  have h := balance_set_reaches_target _ "check" 500 9 _ hset
  exact h.2 1 "Checking" (by decide)

/-- C8: `balance adjust ACCOUNT D` leaves the ledger unchanged, adds D to
the stored beginning balance of the resolved account, and thereby moves
its computed current balance up by exactly D. -/
theorem balance_adjust_shifts_balance (db : DB) (search : String) (delta : ℚ) (now : Nat)
    (db' : DB) (h : balance_adjust db search delta now = .ok db') :
    db'.records = db.records ∧
    ∀ accId accName, find_account db.accounts search = .ok (some (accId, accName)) →
      ∀ acc, db.accounts.find? (fun a => a.id == accId) = some acc →
        ∃ acc', db'.accounts.find? (fun a => a.id == accId) = some acc' ∧
          acc'.beginningBalance = acc.beginningBalance + delta ∧
          calculate_account_balance db'.records accId acc'.beginningBalance
            = calculate_account_balance db.records accId acc.beginningBalance + delta := by
  unfold balance_adjust at h
  split at h
  · exact absurd h (by simp)
  · exact absurd h (by simp)
  next accId0 name0 heq =>
    split at h
    · exact absurd h (by simp)
    next acc hfind =>
      simp only [Except.ok.injEq] at h
      subst h
      refine ⟨rfl, ?_⟩
      intro accId accName heq2
      rw [heq] at heq2
      simp only [Except.ok.injEq, Option.some.injEq, Prod.mk.injEq] at heq2
      obtain ⟨heq1, _⟩ := heq2
      subst heq1
      intro acc2 hfind2
      rw [hfind] at hfind2
      simp only [Option.some.injEq] at hfind2
      subst hfind2
      have hacc := List.find?_some hfind
      have hmap := find?_update_by_id db.accounts accId0 (acc.beginningBalance + delta) now
      rw [hfind, Option.map_some', if_pos hacc] at hmap
      refine ⟨_, hmap, rfl, ?_⟩
      show calculate_account_balance db.records accId0 _ = _
      simp only [balance_split]
      ring

/-- C8 witness. -/
theorem balance_adjust_shifts_balance_witness :
    ∃ acc', List.find? (fun a => a.id == 1)
        (DB.mk [⟨1, "Checking", "", 130, none, 9⟩] [] []).accounts = some acc' ∧
      acc'.beginningBalance = (100 : ℚ) + 30 ∧
      calculate_account_balance (DB.mk [⟨1, "Checking", "", 130, none, 9⟩] [] []).records 1
          acc'.beginningBalance
        = calculate_account_balance [] 1 (100 : ℚ) + 30 := by
  have hadj : balance_adjust (DB.mk [⟨1, "Checking", "", 100, none, 0⟩] [] []) "check" 30 9
      = .ok (DB.mk [⟨1, "Checking", "", 130, none, 9⟩] [] []) := by
    have hf : find_account [⟨1, "Checking", "", 100, none, 0⟩] "check"
        = .ok (some (1, "Checking")) := by decide
    simp only [balance_adjust, hf, List.find?]
    norm_num
  have h := balance_adjust_shifts_balance _ "check" 30 9 _ hadj
  exact h.2 1 "Checking" (by decide) ⟨1, "Checking", "", 100, none, 0⟩ (by decide)

/-! ## C5: `transfer` rejects equal accounts -/

/-- C5: when both account searches resolve to the same id, `transfer`
fails (inserting nothing, since an error aborts before the `INSERT`); and
whenever `transfer` succeeds it has appended exactly one record, a
transfer with a null category whose destination differs from its
source. -/
theorem transfer_rejects_same_account (db : DB) (amount : ℚ) (label : String)
    (fromSearch toSearch : String) (dateVal now freshId : Nat) :
    (∀ i n1 n2, find_account db.accounts fromSearch = .ok (some (i, n1)) →
      find_account db.accounts toSearch = .ok (some (i, n2)) →
      ∃ e, transfer db amount label fromSearch toSearch dateVal now freshId = .error e) ∧
    (∀ db', transfer db amount label fromSearch toSearch dateVal now freshId = .ok db' →
      ∃ r toId, db'.records = db.records ++ [r] ∧ r.isTransfer = true ∧ r.categoryId = none ∧
        r.transferToAccountId = some toId ∧ toId ≠ r.accountId ∧ r.amount = amount ∧
        0 < amount ∧ db'.accounts = db.accounts) := by
  constructor
  · intro i n1 n2 hf1 hf2
    by_cases ha : amount ≤ 0
    · exact ⟨["Amount must be positive."], by unfold transfer; rw [if_pos ha]⟩
    · refine ⟨["Source and destination accounts must be different."], ?_⟩
      unfold transfer
      rw [if_neg ha, hf1, hf2]
      simp
  · intro db' h
    unfold transfer at h
    split at h
    · exact absurd h (by simp)
    next ha =>
      split at h
      · exact absurd h (by simp)
      · exact absurd h (by simp)
      next fromId fromName heqf =>
        split at h
        · exact absurd h (by simp)
        · exact absurd h (by simp)
        next toId toName heqt =>
          split at h
          · exact absurd h (by simp)
          next hne =>
            simp only [Except.ok.injEq] at h
            subst h
            refine ⟨_, toId, rfl, rfl, rfl, rfl, ?_, rfl, not_le.mp ha, rfl⟩
            intro hco
            exact hne (by simp [hco])

/-- C5 witness: both searches resolve to account 1. -/
theorem transfer_rejects_same_account_witness :
    ∃ e, transfer (DB.mk [⟨1, "Checking", "", 0, none, 0⟩] [] []) 5 "move"
        "checking" "CHECKING" 1 2 3 = .error e :=
  (transfer_rejects_same_account (DB.mk [⟨1, "Checking", "", 0, none, 0⟩] [] []) 5 "move"
      "checking" "CHECKING" 1 2 3).1 1 "Checking" "Checking" (by decide) (by decide)

/-! ## C6: `add` inserts exactly one record -/

/-- C6: a non-positive amount makes `add` fail with the invalid-input
error and insert nothing; a successful `add` has appended exactly one
record carrying the given amount, label and income flag, the resolved
account id, and the resolved category id — which is null whenever no
category is given and none is configured. -/
theorem add_inserts_single_record (db : DB) (cfg : List (String × CVal)) (amount : ℚ)
    (label : String) (categoryArg accountArg : Option String) (income : Bool)
    (dateVal now freshId : Nat) :
    (amount ≤ 0 → add db cfg amount label categoryArg accountArg income dateVal now freshId
        = .error ["Amount must be positive."]) ∧
    (∀ db', add db cfg amount label categoryArg accountArg income dateVal now freshId = .ok db' →
      0 < amount ∧
      ∃ r, db'.records = db.records ++ [r] ∧ r.amount = amount ∧ r.label = label ∧
        r.isIncome = income ∧ r.isTransfer = false ∧ r.transferToAccountId = none ∧
        (∃ accName, resolveAddAccount db.accounts (cfgStr cfg "default_account") accountArg
          = .ok (r.accountId, accName)) ∧
        resolveAddCategory db.categories (cfgStr cfg "default_category") categoryArg
          = .ok r.categoryId ∧
        (truthy categoryArg = none → cfgStr cfg "default_category" = none → r.categoryId = none) ∧
        db'.accounts = db.accounts ∧ db'.categories = db.categories) := by
  constructor
  · intro ha
    unfold add
    rw [if_pos ha]
  · intro db' h
    unfold add at h
    split at h
    · exact absurd h (by simp)
    next ha =>
      split at h
      · exact absurd h (by simp)
      next accId accName heqa =>
        split at h
        · exact absurd h (by simp)
        next catId heqc =>
          simp only [Except.ok.injEq] at h
          subst h
          refine ⟨not_le.mp ha, _, rfl, rfl, rfl, rfl, rfl, rfl, ⟨accName, heqa⟩, heqc, ?_, rfl, rfl⟩
          intro ht hd
          rw [resolveAddCategory, ht, hd] at heqc
          simp only [get_default_category, Option.map_none', Except.ok.injEq] at heqc
          exact heqc.symm

/-- C6 witness: a rejected non-positive amount and a successful insertion
resolved through the partial account match "Check" -> "Checking". -/
theorem add_inserts_single_record_witness :
    add (DB.mk [⟨1, "Checking", "", 100, none, 0⟩] [] []) [] (-3) "x" none none false 1 2 3
      = .error ["Amount must be positive."] ∧
    ∃ r, (DB.mk [⟨1, "Checking", "", 100, none, 0⟩] []
        [⟨3, 2, 2, "Groceries", 5, 1, 1, none, false, false, false, none⟩]).records
      = (DB.mk [⟨1, "Checking", "", 100, none, 0⟩] [] []).records ++ [r] ∧ r.amount = 5 := by
  constructor
  · exact (add_inserts_single_record (DB.mk [⟨1, "Checking", "", 100, none, 0⟩] [] []) []
      (-3) "x" none none false 1 2 3).1 (by norm_num)
  · have h := (add_inserts_single_record (DB.mk [⟨1, "Checking", "", 100, none, 0⟩] [] []) []
      5 "Groceries" none (some "Check") false 1 2 3).2
      (DB.mk [⟨1, "Checking", "", 100, none, 0⟩] []
        [⟨3, 2, 2, "Groceries", 5, 1, 1, none, false, false, false, none⟩]) (by decide)
    obtain ⟨-, r, h1, h2, -⟩ := h
    exact ⟨r, h1, h2⟩

/-! ## C4: `undo` deletes the most recently created record -/

theorem selectLastCreated_mem_max : ∀ (l : List Rec), l ≠ [] →
    ∃ r, selectLastCreated l = some r ∧ r ∈ l ∧ ∀ x ∈ l, x.createdAt ≤ r.createdAt := by
  intro l
  induction l with
  | nil => intro h; exact absurd rfl h
  | cons a t ih =>
    intro _
    cases t with
    | nil =>
      refine ⟨a, rfl, List.mem_singleton_self a, ?_⟩
      intro x hx
      rw [List.mem_singleton] at hx
      subst hx
      exact le_refl _
    | cons b t2 =>
      obtain ⟨r, hsel, hmem, hmax⟩ := ih (by simp)
      have hstep : selectLastCreated (a :: b :: t2)
          = match selectLastCreated (b :: t2) with
            | none => some a
            | some bb => if bb.createdAt > a.createdAt then some bb else some a := rfl
      by_cases hgt : r.createdAt > a.createdAt
      · refine ⟨r, ?_, List.mem_cons_of_mem a hmem, ?_⟩
        · rw [hstep, hsel]; simp [hgt]
        · intro x hx
          rcases List.mem_cons.mp hx with heq | hx'
          · subst heq; exact le_of_lt hgt
          · exact hmax x hx'
      · refine ⟨a, ?_, List.mem_cons_self a _, ?_⟩
        · rw [hstep, hsel]; simp [hgt]
        · intro x hx
          rcases List.mem_cons.mp hx with heq | hx'
          · subst heq; exact le_refl _
          · exact le_trans (hmax x hx') (not_lt.mp hgt)

theorem pairwise_ne_apply {α : Type} (f : α → Nat) : ∀ (l : List α),
    l.Pairwise (fun a b => f a ≠ f b) → ∀ x ∈ l, ∀ y ∈ l, x ≠ y → f x ≠ f y := by
  intro l
  induction l with
  | nil => intro _ x hx; cases hx
  | cons a t ih =>
    intro hpw x hx y hy hxy
    rw [List.pairwise_cons] at hpw
    obtain ⟨ha, ht⟩ := hpw
    rcases List.mem_cons.mp hx with heqx | hx' <;> rcases List.mem_cons.mp hy with heqy | hy'
    · subst heqx; subst heqy; exact absurd rfl hxy
    · subst heqx; exact ha y hy'
    · subst heqy; exact (ha x hx').symm
    · exact ih ht x hx' y hy' hxy

theorem filter_removes_id (l : List Rec) (r : Rec) :
    r ∈ l → l.Pairwise (fun a b => a.id ≠ b.id) →
    (l.filter (fun x => !(x.id == r.id))).length + 1 = l.length ∧
    (∀ x ∈ l, x ≠ r → x ∈ l.filter (fun x => !(x.id == r.id))) ∧
    r ∉ l.filter (fun x => !(x.id == r.id)) := by
  induction l with
  | nil => intro h; cases h
  | cons a t ih =>
    intro hmem hpw
    rw [List.pairwise_cons] at hpw
    obtain ⟨hhead, htail⟩ := hpw
    rcases List.mem_cons.mp hmem with heq | hmem'
    · subst heq
      have hnotin : r ∉ t := fun hr => absurd rfl (hhead r hr)
      have hfeq : t.filter (fun x => !(x.id == r.id)) = t := by
        apply List.filter_eq_self.mpr
        intro x hx
        simp [Ne.symm (hhead x hx)]
      have hcons : (r :: t).filter (fun x => !(x.id == r.id)) = t := by
        rw [List.filter_cons]
        simp [hfeq]
      rw [hcons]
      refine ⟨rfl, ?_, hnotin⟩
      intro x hx hxr
      rcases List.mem_cons.mp hx with heqx | hx'
      · exact absurd heqx hxr
      · exact hx'
    · have haid : a.id ≠ r.id := hhead r hmem'
      have hcons : (a :: t).filter (fun x => !(x.id == r.id))
          = a :: t.filter (fun x => !(x.id == r.id)) := by
        rw [List.filter_cons]
        simp [haid]
      obtain ⟨ihlen, ihmem, ihnot⟩ := ih hmem' htail
      rw [hcons]
      refine ⟨by simp [← ihlen], ?_, ?_⟩
      · intro x hx hxr
        rcases List.mem_cons.mp hx with heqx | hx'
        · subst heqx; exact List.mem_cons_self _ _
        · exact List.mem_cons_of_mem a (ihmem x hx' hxr)
      · intro hrmem
        rcases List.mem_cons.mp hrmem with heqr | hr'
        · exact haid (by rw [heqr])
        · exact ihnot hr'

/-- C4: with distinct record ids and distinct creation timestamps, a
confirmed `undo` on a non-empty ledger deletes exactly one record — the
one whose `createdAt` is strictly greatest (its `date` field plays no
role) — and keeps every other record. -/
theorem undo_deletes_latest (db : DB) (yes confirmUndo userConfirms : Bool)
    (hne : db.records ≠ [])
    (hids : db.records.Pairwise (fun a b => a.id ≠ b.id))
    (hcr : db.records.Pairwise (fun a b => a.createdAt ≠ b.createdAt))
    (hconf : (!yes && confirmUndo && !userConfirms) = false) :
    ∃ r, selectLastCreated db.records = some r ∧ r ∈ db.records ∧
      (∀ x ∈ db.records, x ≠ r → x.createdAt < r.createdAt) ∧
      (undo db yes confirmUndo userConfirms).records.length + 1 = db.records.length ∧
      (∀ x ∈ db.records, x ≠ r → x ∈ (undo db yes confirmUndo userConfirms).records) ∧
      r ∉ (undo db yes confirmUndo userConfirms).records := by
  obtain ⟨r, hsel, hmem, hmax⟩ := selectLastCreated_mem_max db.records hne
  have hundo : (undo db yes confirmUndo userConfirms).records
      = db.records.filter (fun x => !(x.id == r.id)) := by
    unfold undo
    rw [hsel, hconf]
    simp
  obtain ⟨hlen, hmem2, hnot⟩ := filter_removes_id db.records r hmem hids
  refine ⟨r, hsel, hmem, ?_, ?_, ?_, ?_⟩
  · intro x hx hxy
    exact lt_of_le_of_ne (hmax x hx) (pairwise_ne_apply Rec.createdAt db.records hcr x hx r hmem hxy)
  · rw [hundo]; exact hlen
  · intro x hx hxr; rw [hundo]; exact hmem2 x hx hxr
  · rw [hundo]; exact hnot

/-- C4 witness: two records, the younger of which is deleted. -/
theorem undo_deletes_latest_witness :
    ∃ r, selectLastCreated (DB.mk [] []
        [⟨1, 1, 1, "a", 2, 1, 1, none, false, false, false, none⟩,
         ⟨2, 5, 5, "b", 3, 1, 1, none, false, false, false, none⟩]).records = some r ∧
      (undo (DB.mk [] []
        [⟨1, 1, 1, "a", 2, 1, 1, none, false, false, false, none⟩,
         ⟨2, 5, 5, "b", 3, 1, 1, none, false, false, false, none⟩]) true true false).records.length + 1
      = (DB.mk [] []
        [⟨1, 1, 1, "a", 2, 1, 1, none, false, false, false, none⟩,
         ⟨2, 5, 5, "b", 3, 1, 1, none, false, false, false, none⟩]).records.length := by
  obtain ⟨r, hsel, -, -, hlen, -⟩ := undo_deletes_latest (DB.mk [] []
        [⟨1, 1, 1, "a", 2, 1, 1, none, false, false, false, none⟩,
         ⟨2, 5, 5, "b", 3, 1, 1, none, false, false, false, none⟩]) true true false
    (by decide) (by decide) (by decide) (by decide)
  exact ⟨r, hsel, hlen⟩

/-! ## C7: `edit` touches only the specified fields -/

theorem mem_insertDesc (r x : Rec) : ∀ (l : List Rec), x ∈ insertDesc r l ↔ x = r ∨ x ∈ l := by
  intro l
  induction l with
  | nil => simp [insertDesc]
  | cons a t ih =>
    simp only [insertDesc]
    by_cases hc : r.createdAt > a.createdAt
    · simp [hc]
    · simp [hc, ih]
      tauto

theorem mem_sortByCreatedDesc (x : Rec) : ∀ (l : List Rec), x ∈ sortByCreatedDesc l ↔ x ∈ l := by
  intro l
  induction l with
  | nil => simp [sortByCreatedDesc]
  | cons a t ih => simp [sortByCreatedDesc, mem_insertDesc, ih]

/-- C7 counterexample: editing only the label still rewrites the record's
`updatedAt` column (here from 0 to 99), so a field the user did not
specify does not retain its prior value. -/
theorem edit_refreshes_updatedAt :
    edit (DB.mk [] [] [⟨1, 10, 0, "x", 5, 20, 1, none, false, false, false, none⟩]) 1
        none (some "y") none none none none 99
      = .ok (DB.mk [] [] [⟨1, 10, 99, "y", 5, 20, 1, none, false, false, false, none⟩]) ∧
    (⟨1, 10, 99, "y", 5, 20, 1, none, false, false, false, none⟩ : Rec).updatedAt
      ≠ (⟨1, 10, 0, "x", 5, 20, 1, none, false, false, false, none⟩ : Rec).updatedAt := by
  constructor
  · decide
  · decide

/-- C7 (amended): a successful `edit` either found no row at the offset
and changed nothing, or rewrote exactly the selected row; the rewrite
overwrites exactly the user-specified fields plus the always-refreshed
`updatedAt` timestamp, and every field the user did not specify — other
than `updatedAt` — keeps its prior value. -/
theorem edit_updates_only_specified (db : DB) (num : Nat) (amountArg : Option ℚ)
    (labelArg categoryArg accountArg : Option String) (dateArg : Option Nat)
    (isIncomeArg : Option Bool) (now : Nat) (db' : DB)
    (h : edit db num amountArg labelArg categoryArg accountArg dateArg isIncomeArg now = .ok db') :
    (db' = db ∨
      ∃ target catR accR, target ∈ db.records ∧
        resolveOptCategory db.categories categoryArg = .ok catR ∧
        resolveOptAccount db.accounts accountArg = .ok accR ∧
        (categoryArg = none → catR = none) ∧
        (accountArg = none → accR = none) ∧
        db'.accounts = db.accounts ∧ db'.categories = db.categories ∧
        db'.records = db.records.map (fun x =>
          if x.id == target.id then applyEdit x amountArg labelArg catR accR dateArg isIncomeArg now
          else x)) ∧
    (∀ (r : Rec) (catR accR : Option Nat),
      (applyEdit r amountArg labelArg catR accR dateArg isIncomeArg now).id = r.id ∧
      (applyEdit r amountArg labelArg catR accR dateArg isIncomeArg now).createdAt = r.createdAt ∧
      (applyEdit r amountArg labelArg catR accR dateArg isIncomeArg now).isTransfer = r.isTransfer ∧
      (applyEdit r amountArg labelArg catR accR dateArg isIncomeArg now).transferToAccountId
        = r.transferToAccountId ∧
      (applyEdit r amountArg labelArg catR accR dateArg isIncomeArg now).isInProgress
        = r.isInProgress ∧
      (applyEdit r amountArg labelArg catR accR dateArg isIncomeArg now).updatedAt = now ∧
      (amountArg = none →
        (applyEdit r amountArg labelArg catR accR dateArg isIncomeArg now).amount = r.amount) ∧
      (labelArg = none →
        (applyEdit r amountArg labelArg catR accR dateArg isIncomeArg now).label = r.label) ∧
      (catR = none →
        (applyEdit r amountArg labelArg catR accR dateArg isIncomeArg now).categoryId
          = r.categoryId) ∧
      (accR = none →
        (applyEdit r amountArg labelArg catR accR dateArg isIncomeArg now).accountId
          = r.accountId) ∧
      (dateArg = none →
        (applyEdit r amountArg labelArg catR accR dateArg isIncomeArg now).date = r.date) ∧
      (isIncomeArg = none →
        (applyEdit r amountArg labelArg catR accR dateArg isIncomeArg now).isIncome
          = r.isIncome)) := by
  constructor
  · unfold edit at h
    split at h
    · exact absurd h (by simp)
    next hnotall =>
      split at h
      · left
        simp only [Except.ok.injEq] at h
        exact h.symm
      next target rest hdrop =>
        split at h
        · exact absurd h (by simp)
        next hamt =>
          split at h
          · exact absurd h (by simp)
          next catR heqc =>
            split at h
            · exact absurd h (by simp)
            next accR heqa =>
              simp only [Except.ok.injEq] at h
              subst h
              right
              refine ⟨target, catR, accR, ?_, heqc, heqa, ?_, ?_, rfl, rfl, rfl⟩
              · have hmem : target ∈ (sortByCreatedDesc db.records).drop (num - 1) := by
                  rw [hdrop]
                  exact List.mem_cons_self _ _
                exact (mem_sortByCreatedDesc target db.records).mp (List.drop_subset _ _ hmem)
              · intro hnone
                subst hnone
                simp only [resolveOptCategory, Except.ok.injEq] at heqc
                exact heqc.symm
              · intro hnone
                subst hnone
                simp only [resolveOptAccount, Except.ok.injEq] at heqa
                exact heqa.symm
  · intro r catR accR
    refine ⟨rfl, rfl, rfl, rfl, rfl, rfl, ?_, ?_, ?_, ?_, ?_, ?_⟩
    all_goals intro he
    all_goals subst he
    all_goals rfl

/-- C7 amended-theorem witness. -/
theorem edit_updates_only_specified_witness :
    (applyEdit ⟨1, 10, 0, "x", 5, 20, 1, none, false, false, false, none⟩ none (some "y")
        none none none none 99).updatedAt = 99 ∧
    (applyEdit ⟨1, 10, 0, "x", 5, 20, 1, none, false, false, false, none⟩ none (some "y")
        none none none none 99).amount
      = (⟨1, 10, 0, "x", 5, 20, 1, none, false, false, false, none⟩ : Rec).amount := by
  have h := edit_updates_only_specified
    (DB.mk [] [] [⟨1, 10, 0, "x", 5, 20, 1, none, false, false, false, none⟩]) 1
    none (some "y") none none none none 99
    (DB.mk [] [] [⟨1, 10, 99, "y", 5, 20, 1, none, false, false, false, none⟩]) (by decide)
  have h2 := h.2 ⟨1, 10, 0, "x", 5, 20, 1, none, false, false, false, none⟩ none none
  exact ⟨h2.2.2.2.2.2.1, h2.2.2.2.2.2.2.1 rfl⟩

/-! ## C9: config merging -/

theorem lookup_setKey_self (k : String) (v : CVal) : ∀ (d : List (String × CVal)),
    List.lookup k (setKey d k v) = some v := by
  intro d
  induction d with
  | nil => simp [setKey, List.lookup]
  | cons p t ih =>
    by_cases hp : (p.1 == k) = true
    · simp [setKey, hp, List.lookup]
    · simp only [Bool.not_eq_true] at hp
      have hp2 : (k == p.1) = false :=
        beq_eq_false_iff_ne.mpr (fun he => (beq_eq_false_iff_ne.mp hp) he.symm)
      simp [setKey, hp, List.lookup, hp2, ih]

theorem lookup_setKey_ne (k k' : String) (v : CVal) (hne : k' ≠ k) :
    ∀ (d : List (String × CVal)), List.lookup k' (setKey d k v) = List.lookup k' d := by
  have hq : (k' == k) = false := beq_eq_false_iff_ne.mpr hne
  intro d
  induction d with
  | nil => simp [setKey, List.lookup, hq]
  | cons p t ih =>
    by_cases hp : (p.1 == k) = true
    · have hpk : p.1 = k := by simpa using hp
      simp [setKey, hp, List.lookup, hq, hpk]
    · simp only [Bool.not_eq_true] at hp
      cases hq2 : (k' == p.1) <;> simp [setKey, hp, List.lookup, hq2, ih]

theorem lookup_none_of_not_mem_keys (k : String) : ∀ (d : List (String × CVal)),
    k ∉ d.map Prod.fst → List.lookup k d = none := by
  intro d
  induction d with
  | nil => intro _; rfl
  | cons p t ih =>
    intro hmem
    simp only [List.map_cons, List.mem_cons, not_or] at hmem
    obtain ⟨h1, h2⟩ := hmem
    have hp : (k == p.1) = false := beq_eq_false_iff_ne.mpr h1
    simp [List.lookup, hp, ih h2]

theorem lookup_dictUpdate (upd : List (String × CVal)) :
    ∀ (base : List (String × CVal)), (upd.map Prod.fst).Nodup → ∀ k,
    List.lookup k (dictUpdate base upd)
      = match List.lookup k upd with
        | some v => some v
        | none => List.lookup k base := by
  induction upd with
  | nil => intro base _ k; rfl
  | cons p t ih =>
    intro base hnd k
    obtain ⟨k0, v0⟩ := p
    simp only [List.map_cons, List.nodup_cons] at hnd
    obtain ⟨hk0, hndt⟩ := hnd
    have hstep : dictUpdate base ((k0, v0) :: t) = dictUpdate (setKey base k0 v0) t := rfl
    rw [hstep, ih (setKey base k0 v0) hndt k]
    by_cases hk : k = k0
    · subst hk
      have hlt : List.lookup k t = none := lookup_none_of_not_mem_keys k t hk0
      rw [hlt, lookup_setKey_self]
      simp [List.lookup]
    · have hbeq : (k == k0) = false := beq_eq_false_iff_ne.mpr hk
      rw [lookup_setKey_ne k0 k v0 hk]
      have hred : List.lookup k ((k0, v0) :: t) = List.lookup k t := by
        simp [List.lookup, hbeq]
      rw [hred]

/-- C9: loading a saved configuration yields the built-in defaults
overridden by every key present in the file: a key present in the file
keeps its file value — including keys unknown to the tool, which are thus
retained in the loaded mapping and written back on save — and a key absent
from the file falls back to its default; a missing or unreadable file
yields the defaults. -/
theorem get_config_merges (saved : List (String × CVal))
    (hnd : (saved.map Prod.fst).Nodup) :
    (∀ k v, List.lookup k saved = some v →
      List.lookup k (get_config (some saved)) = some v) ∧
    (∀ k, List.lookup k saved = none →
      List.lookup k (get_config (some saved)) = List.lookup k configDefaults) ∧
    get_config none = configDefaults := by
  refine ⟨?_, ?_, rfl⟩
  · intro k v hv
    have hstep : get_config (some saved) = dictUpdate configDefaults saved := rfl
    rw [hstep, lookup_dictUpdate saved configDefaults hnd k, hv]
  · intro k hnone
    have hstep : get_config (some saved) = dictUpdate configDefaults saved := rfl
    rw [hstep, lookup_dictUpdate saved configDefaults hnd k, hnone]

/-- C9 witness: a file setting `default_account`, carrying an unknown key
`mystery`, and leaving `confirm_undo` unset. -/
theorem get_config_merges_witness :
    List.lookup "mystery" (get_config (some [("default_account", CVal.str "Checking"),
        ("mystery", CVal.str "42")])) = some (CVal.str "42") ∧
    List.lookup "confirm_undo" (get_config (some [("default_account", CVal.str "Checking"),
        ("mystery", CVal.str "42")])) = some (CVal.bool true) := by
  have h := get_config_merges
    [("default_account", CVal.str "Checking"), ("mystery", CVal.str "42")] (by decide)
  constructor
  · exact h.1 "mystery" (CVal.str "42") (by decide)
  · have h2 := h.2.1 "confirm_undo" (by decide)
    rw [h2]
    decide

/-! ## C10: default-account fallback -/

theorem minByIdWith_cons (p : Account → Bool) (a : Account) (t : List Account) :
    minByIdWith p (a :: t) = match minByIdWith p t with
      | none => if p a then some a else none
      | some b => if p a then (if a.id < b.id then some a else some b) else some b := rfl

theorem minByIdWith_spec (p : Account → Bool) : ∀ (l : List Account),
    (∀ a, minByIdWith p l = some a →
      a ∈ l ∧ p a = true ∧ ∀ b ∈ l, p b = true → a.id ≤ b.id) ∧
    (minByIdWith p l = none → ∀ b ∈ l, p b = false) := by
  intro l
  induction l with
  | nil =>
    constructor
    · intro a h; cases h
    · intro _ b hb; cases hb
  | cons a t ih =>
    obtain ⟨ihsome, ihnone⟩ := ih
    constructor
    · intro x hx
      rw [minByIdWith_cons] at hx
      cases hmt : minByIdWith p t with
      | none =>
        rw [hmt] at hx
        have hall := ihnone hmt
        by_cases hpa : p a = true
        · simp [hpa] at hx
          subst hx
          refine ⟨List.mem_cons_self _ _, hpa, ?_⟩
          intro b hb hpb
          rcases List.mem_cons.mp hb with heq | hb'
          · subst heq; exact le_refl _
          · exact absurd hpb (by simp [hall b hb'])
        · simp [hpa] at hx
      | some c =>
        rw [hmt] at hx
        obtain ⟨hcmem, hcp, hcmin⟩ := ihsome c hmt
        by_cases hpa : p a = true
        · simp only [hpa, if_true] at hx
          by_cases hlt : a.id < c.id
          · rw [if_pos hlt] at hx
            simp only [Option.some.injEq] at hx
            subst hx
            refine ⟨List.mem_cons_self _ _, hpa, ?_⟩
            intro b hb hpb
            rcases List.mem_cons.mp hb with heq | hb'
            · subst heq; exact le_refl _
            · exact le_trans (le_of_lt hlt) (hcmin b hb' hpb)
          · rw [if_neg hlt] at hx
            simp only [Option.some.injEq] at hx
            subst hx
            refine ⟨List.mem_cons_of_mem a hcmem, hcp, ?_⟩
            intro b hb hpb
            rcases List.mem_cons.mp hb with heq | hb'
            · subst heq; exact not_lt.mp hlt
            · exact hcmin b hb' hpb
        · simp only [hpa, if_false, Bool.false_eq_true] at hx
          simp only [Option.some.injEq] at hx
          subst hx
          refine ⟨List.mem_cons_of_mem a hcmem, hcp, ?_⟩
          intro b hb hpb
          rcases List.mem_cons.mp hb with heq | hb'
          · subst heq; exact absurd hpb hpa
          · exact hcmin b hb' hpb
    · intro hnone b hb
      rw [minByIdWith_cons] at hnone
      cases hmt : minByIdWith p t with
      | none =>
        rw [hmt] at hnone
        by_cases hpa : p a = true
        · simp [hpa] at hnone
        · rcases List.mem_cons.mp hb with heq | hb'
          · subst heq; simpa using hpa
          · exact ihnone hmt b hb'
      | some c =>
        rw [hmt] at hnone
        have hnone2 : (if p a then (if a.id < c.id then some a else some c) else some c)
            = (none : Option Account) := hnone
        by_cases hpa : p a = true
        · rw [if_pos hpa] at hnone2
          by_cases hlt : a.id < c.id
          · rw [if_pos hlt] at hnone2; cases hnone2
          · rw [if_neg hlt] at hnone2; cases hnone2
        · rw [if_neg hpa] at hnone2; cases hnone2

/-- C10: when the configured `default_account` name resolves to no
account, `get_default_account` does not fail while a live account exists:
it falls back to the least-id non-soft-deleted account not named
`'Outside source'` when one exists, else to the least-id non-soft-deleted
account; it errors exactly when every account is soft-deleted (or none
exists). -/
theorem get_default_account_silent_fallback (accs : List Account) (s : String)
    (hfail : find_account accs s = .ok none) :
    (∀ a0 ∈ accs, a0.deletedAt = none → a0.name ≠ "Outside source" →
      ∃ a, get_default_account accs (some s) = .ok (a.id, a.name) ∧ a ∈ accs ∧
        a.deletedAt = none ∧ a.name ≠ "Outside source" ∧
        ∀ b ∈ accs, b.deletedAt = none → b.name ≠ "Outside source" → a.id ≤ b.id) ∧
    ((∀ a0 ∈ accs, a0.deletedAt = none → a0.name = "Outside source") →
      ∀ a0 ∈ accs, a0.deletedAt = none →
      ∃ a, get_default_account accs (some s) = .ok (a.id, a.name) ∧ a ∈ accs ∧
        a.deletedAt = none ∧ ∀ b ∈ accs, b.deletedAt = none → a.id ≤ b.id) ∧
    ((∀ a0 ∈ accs, a0.deletedAt ≠ none) →
      get_default_account accs (some s)
        = .error ["No accounts found. Create one in Bagels first."]) := by
  have hgd : get_default_account accs (some s) = defaultAccountFallback accs := by
    have hstep : get_default_account accs (some s)
        = (match find_account accs s with
          | .error e => .error e
          | .ok (some r) => .ok r
          | .ok none => defaultAccountFallback accs) := rfl
    rw [hstep, hfail]
  refine ⟨?_, ?_, ?_⟩
  · intro a0 hmem0 hdel0 hname0
    cases hm : minByIdWith (fun a => a.deletedAt == none && a.name != "Outside source") accs with
    | none =>
      have hall := (minByIdWith_spec _ accs).2 hm a0 hmem0
      rw [hdel0] at hall
      simp [hname0] at hall
    | some a =>
      obtain ⟨hamem, hap, hamin⟩ := (minByIdWith_spec _ accs).1 a hm
      simp only [Bool.and_eq_true, beq_iff_eq, bne_iff_ne, ne_eq] at hap
      refine ⟨a, ?_, hamem, hap.1, hap.2, ?_⟩
      · rw [hgd]
        unfold defaultAccountFallback
        rw [hm]
      · intro b hb hbdel hbname
        exact hamin b hb (by simp [hbdel, hbname])
  · intro hallOS a0 hmem0 hdel0
    have hm1 : minByIdWith (fun a => a.deletedAt == none && a.name != "Outside source") accs
        = none := by
      cases hm : minByIdWith (fun a => a.deletedAt == none && a.name != "Outside source") accs with
      | none => rfl
      | some a =>
        obtain ⟨hamem, hap, -⟩ := (minByIdWith_spec _ accs).1 a hm
        simp only [Bool.and_eq_true, beq_iff_eq, bne_iff_ne, ne_eq] at hap
        exact absurd (hallOS a hamem hap.1) hap.2
    cases hm2 : minByIdWith (fun a => a.deletedAt == none) accs with
    | none =>
      have hall := (minByIdWith_spec _ accs).2 hm2 a0 hmem0
      rw [hdel0] at hall
      simp at hall
    | some a =>
      obtain ⟨hamem, hap, hamin⟩ := (minByIdWith_spec _ accs).1 a hm2
      simp only [beq_iff_eq] at hap
      refine ⟨a, ?_, hamem, hap, ?_⟩
      · rw [hgd]
        unfold defaultAccountFallback
        rw [hm1, hm2]
      · intro b hb hbdel
        exact hamin b hb (by simp [hbdel])
  · intro hdead
    have hm1 : minByIdWith (fun a => a.deletedAt == none && a.name != "Outside source") accs
        = none := by
      cases hm : minByIdWith (fun a => a.deletedAt == none && a.name != "Outside source") accs with
      | none => rfl
      | some a =>
        obtain ⟨hamem, hap, -⟩ := (minByIdWith_spec _ accs).1 a hm
        simp only [Bool.and_eq_true, beq_iff_eq, bne_iff_ne, ne_eq] at hap
        exact absurd hap.1 (hdead a hamem)
    have hm2 : minByIdWith (fun a => a.deletedAt == none) accs = none := by
      cases hm : minByIdWith (fun a => a.deletedAt == none) accs with
      | none => rfl
      | some a =>
        obtain ⟨hamem, hap, -⟩ := (minByIdWith_spec _ accs).1 a hm
        simp only [beq_iff_eq] at hap
        exact absurd hap (hdead a hamem)
    rw [hgd]
    unfold defaultAccountFallback
    rw [hm1, hm2]

/-- C10 witness: the configured name resolves to nothing, and the
fallback skips `'Outside source'` to pick account 2. -/
theorem get_default_account_silent_fallback_witness :
    ∃ a, get_default_account [⟨1, "Outside source", "", 0, none, 0⟩,
        ⟨2, "Checking", "", 0, none, 0⟩] (some "zzz") = .ok (a.id, a.name) ∧
      a ∈ [(⟨1, "Outside source", "", 0, none, 0⟩ : Account),
        ⟨2, "Checking", "", 0, none, 0⟩] ∧
      a.deletedAt = none ∧ a.name ≠ "Outside source" := by
  have h := (get_default_account_silent_fallback [⟨1, "Outside source", "", 0, none, 0⟩,
      ⟨2, "Checking", "", 0, none, 0⟩] "zzz" (by decide)).1
    ⟨2, "Checking", "", 0, none, 0⟩ (by decide) (by decide) (by decide)
  obtain ⟨a, h1, h2, h3, h4, -⟩ := h
  exact ⟨a, h1, h2, h3, h4⟩

/-! ## C3: the name resolver -/

theorem charToNat_ofNat_valid (n : Nat) (h : n.isValidChar) : (Char.ofNat n).toNat = n := by
  rw [Char.ofNat, dif_pos h]
  rfl

theorem toLower_ne_pct (c : Char) (h1 : c ≠ '%') : c.toLower ≠ '%' := by
  unfold Char.toLower
  simp only
  split
  next hcond =>
    intro heq
    have h3 := congrArg Char.toNat heq
    have hvalid : (c.toNat + 32).isValidChar := by
      left
      omega
    rw [charToNat_ofNat_valid _ hvalid] at h3
    have h37 : Char.toNat '%' = 37 := rfl
    omega
  next => exact h1

theorem toLower_ne_underscore (c : Char) (h1 : c ≠ '_') : c.toLower ≠ '_' := by
  unfold Char.toLower
  simp only
  split
  next hcond =>
    intro heq
    have h3 := congrArg Char.toNat heq
    have hvalid : (c.toNat + 32).isValidChar := by
      left
      omega
    rw [charToNat_ofNat_valid _ hvalid] at h3
    have h95 : Char.toNat '_' = 95 := rfl
    omega
  next => exact h1

theorem mem_tails_exists : ∀ (s t : List Char), t ∈ s.tails ↔ ∃ u, u ++ t = s := by
  intro s
  induction s with
  | nil =>
    intro t
    constructor
    · intro h
      simp only [List.tails, List.mem_singleton] at h
      exact ⟨[], by simp [h]⟩
    · rintro ⟨u, hu⟩
      rcases List.append_eq_nil.mp hu with ⟨-, rfl⟩
      simp [List.tails]
  | cons a s ih =>
    intro t
    rw [List.tails_cons, List.mem_cons, ih]
    constructor
    · rintro (rfl | ⟨u, rfl⟩)
      · exact ⟨[], rfl⟩
      · exact ⟨a :: u, rfl⟩
    · rintro ⟨u, hu⟩
      cases u with
      | nil => left; rw [← hu]; rfl
      | cons b u2 =>
        right
        simp only [List.cons_append, List.cons.injEq] at hu
        exact ⟨u2, hu.2⟩

theorem likeMatch_pct (ps : List Char) (s : List Char) :
    likeMatch ('%' :: ps) s = true ↔ ∃ u t, u ++ t = s ∧ likeMatch ps t = true := by
  rw [show likeMatch ('%' :: ps) s = s.tails.any (fun t => likeMatch ps t) from by
    simp [likeMatch]]
  rw [List.any_eq_true]
  constructor
  · rintro ⟨t, ht, hm⟩
    obtain ⟨u, hu⟩ := (mem_tails_exists s t).mp ht
    exact ⟨u, t, hu, hm⟩
  · rintro ⟨u, t, hu, hm⟩
    exact ⟨t, (mem_tails_exists s t).mpr ⟨u, hu⟩, hm⟩

theorem likeMatch_single_pct (s : List Char) : likeMatch ['%'] s = true :=
  (likeMatch_pct [] s).mpr ⟨s, [], by simp, rfl⟩

theorem likeMatch_lit_pct (p : List Char) (hw : ∀ c ∈ p, c ≠ '%' ∧ c ≠ '_') :
    ∀ t, likeMatch (p ++ ['%']) t = true ↔ ∃ w, p ++ w = t := by
  induction p with
  | nil =>
    intro t
    simp [likeMatch_single_pct]
  | cons c p ih =>
    have hc := hw c (List.mem_cons_self c p)
    have hw2 : ∀ d ∈ p, d ≠ '%' ∧ d ≠ '_' := fun d hd => hw d (List.mem_cons_of_mem c hd)
    have hbc : (c == '%') = false := beq_eq_false_iff_ne.mpr hc.1
    have hbu : (c == '_') = false := beq_eq_false_iff_ne.mpr hc.2
    intro t
    cases t with
    | nil =>
      simp [likeMatch, hbc]
    | cons d t2 =>
      rw [show likeMatch (c :: p ++ ['%']) (d :: t2)
          = ((c == '_' || c == d) && likeMatch (p ++ ['%']) t2) from by
        simp [likeMatch, hbc]]
      rw [hbu]
      simp only [Bool.false_or, Bool.and_eq_true, beq_iff_eq, ih hw2, List.cons_append,
        List.cons.injEq]
      constructor
      · rintro ⟨rfl, w, rfl⟩
        exact ⟨w, rfl, rfl⟩
      · rintro ⟨w, rfl, hw3⟩
        exact ⟨rfl, w, hw3⟩

theorem containsChars_iff (p s : List Char) :
    containsChars p s = true ↔ ∃ u w, u ++ (p ++ w) = s := by
  unfold containsChars
  rw [List.any_eq_true]
  constructor
  · rintro ⟨t, ht, hp⟩
    obtain ⟨u, hu⟩ := (mem_tails_exists s t).mp ht
    have hlen : p = t.take p.length := by simpa using hp
    refine ⟨u, t.drop p.length, ?_⟩
    calc u ++ (p ++ t.drop p.length)
        = u ++ (t.take p.length ++ t.drop p.length) := by rw [← hlen]
      _ = u ++ t := by rw [List.take_append_drop]
      _ = s := hu
  · rintro ⟨u, w, hu⟩
    refine ⟨p ++ w, (mem_tails_exists s (p ++ w)).mpr ⟨u, hu⟩, ?_⟩
    have htake : (p ++ w).take p.length = p := List.take_left p w
    simp [htake]

theorem likePatternOf_eq (search : String) :
    likePatternOf search = '%' :: (lowerChars search ++ ['%']) := by
  have hp : Char.toLower '%' = '%' := by decide
  unfold likePatternOf lowerChars
  simp [hp]

theorem nameLike_iff_contains (search name : String)
    (hw : ∀ c ∈ search.data, c ≠ '%' ∧ c ≠ '_') :
    nameLike search name = containsChars (lowerChars search) (lowerChars name) := by
  have hw2 : ∀ c ∈ lowerChars search, c ≠ '%' ∧ c ≠ '_' := by
    intro c hc
    rw [lowerChars, List.mem_map] at hc
    obtain ⟨d, hd, rfl⟩ := hc
    exact ⟨toLower_ne_pct d (hw d hd).1, toLower_ne_underscore d (hw d hd).2⟩
  have hiff : nameLike search name = true
      ↔ containsChars (lowerChars search) (lowerChars name) = true := by
    rw [nameLike, likePatternOf_eq, likeMatch_pct, containsChars_iff]
    constructor
    · rintro ⟨u, t, hu, hm⟩
      obtain ⟨w, hw3⟩ := (likeMatch_lit_pct (lowerChars search) hw2 t).mp hm
      exact ⟨u, w, by rw [hw3, hu]⟩
    · rintro ⟨u, w, hu⟩
      exact ⟨u, lowerChars search ++ w, hu, (likeMatch_lit_pct _ hw2 _).mpr ⟨w, rfl⟩⟩
  cases h1 : nameLike search name with
  | true => rw [(hiff.mp h1).symm]
  | false =>
    cases h2 : containsChars (lowerChars search) (lowerChars name) with
    | false => rfl
    | true => rw [hiff.mpr h2] at h1; cases h1

/-- C3 counterexample: with the single category `abc`, the search string
`a_c` is not a substring of any candidate name, so the claim's algorithm
returns "not found" (`specResolveRows`) — yet the code's `LIKE` query
treats `_` as a single-character wildcard and resolves the category. -/
theorem resolver_like_wildcards :
    find_category [⟨1, "abc", "want", none, none⟩] "a_c" = .ok (some (1, "abc")) ∧
    specResolveRows (categoryRows [⟨1, "abc", "want", none, none⟩]) "a_c" = .ok none ∧
    containsChars (lowerChars "a_c") (lowerChars "abc") = false :=
  ⟨by decide, by decide, by decide⟩

/-- C3 (amended): the resolver returns the first case-insensitive exact
name match when one exists (even when several other names also match
partially); otherwise it filters the rows by the case-insensitive SQL
`LIKE '%search%'` pattern — which coincides with plain substring
containment exactly when the search string holds neither of the wildcards
`%` and `_` — and returns "not found" on zero matches, the unique
candidate on exactly one, and an ambiguous-match error listing all
candidate names on more than one; `find_account` and `find_category` both
run this procedure on the non-soft-deleted rows. -/
theorem resolver_characterization (rows : List (Nat × String)) (search : String) :
    (∀ p, rows.find? (fun q => exactNameMatch search q.2) = some p →
      resolveRows rows search = .ok (some p)) ∧
    (rows.find? (fun q => exactNameMatch search q.2) = none →
      (rows.filter (fun q => nameLike search q.2) = [] → resolveRows rows search = .ok none) ∧
      (∀ p, rows.filter (fun q => nameLike search q.2) = [p] →
        resolveRows rows search = .ok (some p)) ∧
      (∀ p q rest, rows.filter (fun q2 => nameLike search q2.2) = p :: q :: rest →
        resolveRows rows search = .error ((p :: q :: rest).map (fun x => x.2)))) ∧
    ((∀ c ∈ search.data, c ≠ '%' ∧ c ≠ '_') →
      ∀ name, nameLike search name = containsChars (lowerChars search) (lowerChars name)) ∧
    (∀ accs, find_account accs search = resolveRows (accountRows accs) search) ∧
    (∀ cats, find_category cats search = resolveRows (categoryRows cats) search) := by
  refine ⟨?_, ?_, ?_, fun _ => rfl, fun _ => rfl⟩
  · intro p hp
    unfold resolveRows
    rw [hp]
  · intro hnone
    refine ⟨?_, ?_, ?_⟩
    · intro hf
      unfold resolveRows
      rw [hnone, hf]
    · intro p hf
      unfold resolveRows
      rw [hnone, hf]
    · intro p q rest hf
      unfold resolveRows
      rw [hnone, hf]
  · intro hw name
    exact nameLike_iff_contains search name hw

/-- C3 amended-theorem witness: the spec's own example — the exact match
`Food` wins over the partial match `Food Delivery` — and a wildcard-free
search whose `LIKE` test agrees with substring containment. -/
theorem resolver_characterization_witness :
    resolveRows [(1, "Food"), (2, "Food Delivery")] "food" = .ok (some (1, "Food")) ∧
    nameLike "eli" "Food Delivery"
      = containsChars (lowerChars "eli") (lowerChars "Food Delivery") :=
  ⟨(resolver_characterization [(1, "Food"), (2, "Food Delivery")] "food").1
      (1, "Food") (by decide),
   (resolver_characterization [] "eli").2.2.1 (by decide) "Food Delivery"⟩
